import Mathlib

/-!
Shallow embedding of the issue9/middleware response-compression code.

Embedded sources:
* `compress` package, registry and negotiation (`AddAlgorithm`, `SetAlgorithm`,
  `findAlgorithm`) — file `algorithm.go`;
* `compress` package, per-request response wrapper (`response.WriteHeader`,
  `response.Write`, `response.writeHeader`, `bodyAllowedForStatus`) —
  file `response.go`;
* the legacy `handlers` package compressor (`compress.ServeHTTP`).

Modelling conventions: a pooled compressor writer is identified by a
natural number (the pool it came from); `pool.Get()` yields that number.
Quality weights are rationals (the code only compares them with zero,
and a parsed q-value is exactly zero iff its float is exactly zero).
`http.DetectContentType` is an external collaborator and is passed in as
an arbitrary function `detect`.
-/

/-- One registered codec: the `algorithm` struct of the source.  The pool
of writers is abstracted to an identifier. -/
structure Algorithm where
  name : String
  pool : Nat
deriving DecidableEq

/-- One parsed entry of the Accept-Encoding header, as produced by the
external qheader parser: a value, a quality weight and an error flag. -/
structure AcceptEntry where
  value : String
  q : Rat
  err : Bool
deriving DecidableEq

/-- Result of `findAlgorithm`: the Go triple (name, f, notAcceptable)
where an empty name with nil f means no compression. -/
inductive FindResult where
  | notAcceptable
  | noCompression
  | compress (name : String) (w : Nat)
deriving DecidableEq

/-- The Compress middleware configuration: the ordered codec registry and
the content-type filter patterns (`types`, passed to `New`). -/
structure Compress where
  algorithms : List Algorithm
  types : List String
deriving DecidableEq

/-- Name check shared by AddAlgorithm and SetAlgorithm:
`name == "" || name == "identity" || name == "*"` panics. -/
def reservedName (name : String) : Bool :=
  name = "" || name = "identity" || name = "*"

/-- Outcome of a registration call: a panic, or a normal return carrying
the boolean result and the updated registry. -/
inductive RegResult where
  | panics
  | ok (b : Bool) (algs : List Algorithm)
deriving DecidableEq

/-- Outcome of SetAlgorithm: a panic or the updated registry. -/
inductive SetResult where
  | panics
  | ok (algs : List Algorithm)
deriving DecidableEq

/-- Embedding of `Compress.AddAlgorithm`.  The writer factory `wf` is
abstracted to `Option Nat`: `none` is a nil factory, `some w` a factory
whose pooled writers are identified by `w`.  The source counts existing
entries with `sliceutil.Count` and refuses duplicates, else appends. -/
def AddAlgorithm (algs : List Algorithm) (name : String) (wf : Option Nat) : RegResult :=
  if reservedName name then .panics
  else if wf.isNone then .panics
  else if 0 < algs.countP (fun a => a.name = name) then .ok false algs
  else .ok true (algs ++ [⟨name, wf.getD 0⟩])

/-- Embedding of `Compress.SetAlgorithm`.  With a nil factory it deletes
the named entries (`sliceutil.Delete`); otherwise it appends a new entry
unconditionally. -/
def SetAlgorithm (algs : List Algorithm) (name : String) (wf : Option Nat) : SetResult :=
  if reservedName name then .panics
  else
    match wf with
    | none => .ok (algs.filter (fun a => a.name ≠ name))
    | some w => .ok (algs ++ [⟨name, w⟩])

/-- The inner double loop of the `*` branch of `findAlgorithm`: for each
registered algorithm in order, return it as soon as SOME header entry has
a value different from its name (the source returns from inside the loop
over `accepts` on the first item with `item.Value != a.name`). -/
def matchStar (algs : List Algorithm) (accepts : List AcceptEntry) : Option Algorithm :=
  algs.find? (fun a => accepts.any (fun item => item.value ≠ a.name))

/-- Lookup of a codec by exact name, registration order. -/
def findIn (algs : List Algorithm) (v : String) : Option Algorithm :=
  algs.find? (fun a => a.name = v)

/-- The loop of `findAlgorithm` over the parsed header entries.  `all` is
the full parsed list (the `*` branch iterates over it), the last argument
the remaining entries. -/
def findAlgorithmAux (algs : List Algorithm) (all : List AcceptEntry) :
    List AcceptEntry → FindResult
  | [] => .noCompression
  | accept :: rest =>
    if accept.err then findAlgorithmAux algs all rest
    else if accept.value = "*" then
      if accept.q = 0 then .notAcceptable
      else
        match matchStar algs all with
        | some a => .compress a.name a.pool
        | none => findAlgorithmAux algs all rest
    else if accept.value = "identity" then .noCompression
    else
      match findIn algs accept.value with
      | some a => .compress a.name a.pool
      | none => findAlgorithmAux algs all rest

/-- Embedding of `Compress.findAlgorithm` on the parsed header entries. -/
def findAlgorithm (algs : List Algorithm) (accepts : List AcceptEntry) : FindResult :=
  findAlgorithmAux algs accepts accepts

/-- The wildcard selection rule as the specification states it (for
comparison with the source): the first registered codec whose name does
not appear as an explicit entry anywhere in the header. -/
def specStarScan (algs : List Algorithm) (accepts : List AcceptEntry) : Option Algorithm :=
  algs.find? (fun a => !(accepts.any (fun item => item.value = a.name)))

/-! Header maps.  `http.Header` is a map from key to list of values; we
represent it as an association list, keeping per-key value order.  `Set`
replaces all values of a key, `Add` appends one, `Del` removes the key,
`Get` returns the first value or the empty string. -/

/-- Association-list model of `http.Header`. -/
abbrev Header := List (String × String)

/-- All values stored under a key, in order (`h[k]`). -/
def hValues (h : Header) (k : String) : List String :=
  match h with
  | [] => []
  | p :: t => if p.1 = k then p.2 :: hValues t k else hValues t k

/-- `Header.Get`: first value under the key, or the empty string. -/
def hGet (h : Header) (k : String) : String :=
  (hValues h k).headD ""

/-- `Header.Del`. -/
def hDel (h : Header) (k : String) : Header :=
  h.filter (fun p => p.1 ≠ k)

/-- `Header.Set`: replace all values of the key by the single given one. -/
def hSet (h : Header) (k v : String) : Header :=
  hDel h k ++ [(k, v)]

/-- `Header.Add`: append one value for the key. -/
def hAdd (h : Header) (k v : String) : Header :=
  h ++ [(k, v)]

/-- Copy of the standard-library helper in `response.go`: whether a
status code permits a response body (RFC 7230, section 3.3). -/
def bodyAllowedForStatus (status : Nat) : Bool :=
  if 100 ≤ status && status ≤ 199 then false
  else if status = 204 then false
  else if status = 304 then false
  else true

/-! Executable character-list string helpers (the standard String
versions rely on byte-position internals that the kernel does not
reduce; these mirror the Go semantics on the character level). -/

/-- Split on a separator character, Go `strings.Split` with a one-character
separator: the empty string yields one empty field. -/
def splitAux (sep : Char) : List Char → List Char → List String
  | acc, [] => [⟨acc.reverse⟩]
  | acc, c :: cs =>
    if c = sep then ⟨acc.reverse⟩ :: splitAux sep [] cs
    else splitAux sep (c :: acc) cs

/-- Split a string on a separator character. -/
def splitOnChar (sep : Char) (s : String) : List String :=
  splitAux sep [] s.data

/-- ASCII lowercasing of one character (header tokens are ASCII). -/
def charToLower (c : Char) : Char :=
  if 'A' ≤ c && c ≤ 'Z' then Char.ofNat (c.toNat + 32) else c

/-- Go `strings.ToLower` restricted to ASCII input. -/
def strToLower (s : String) : String :=
  ⟨s.data.map charToLower⟩

/-- Remove leading and trailing spaces. -/
def trimSpaces (s : String) : String :=
  ⟨((s.data.dropWhile (fun c => c = ' ')).reverse.dropWhile (fun c => c = ' ')).reverse⟩

/-- Whether the pattern ends in the two characters slash-star. -/
def endsSlashStar (p : String) : Bool :=
  p.data.reverse.take 2 = ['*', '/']

/-- Drop the final character. -/
def dropLastChar (p : String) : String :=
  ⟨p.data.dropLast⟩

/-- Whether `p` is an initial segment of `s`. -/
def startsWithStr (s p : String) : Bool :=
  s.data.take p.data.length = p.data

/-- Modelled from the spec: the method `Compress.canCompressed` is not
among the provided sources (only its callers are).  Per the spec, the
Content-Type filter strips any parameters (everything from the first
semicolon on) before comparing; an exact pattern matches verbatim, a
pattern `type/*` matches any subtype under `type`, a bare `*` matches
everything, and with no patterns nothing is eligible. -/
def canCompressed (types : List String) (ct : String) : Bool :=
  let mt := trimSpaces ((splitOnChar ';' ct).headD "")
  types.any (fun p =>
    p = "*" || p = mt || (endsSlashStar p && startsWithStr mt (dropLastChar p)))

/-- Where `resp.writer` currently points: nowhere yet (nil), the raw
`responseWriter`, or the compressing writer `resp.f`. -/
inductive WTarget where
  | unset
  | raw
  | codec (w : Nat)
deriving DecidableEq

/-- The per-request `response` wrapper state, together with the
observable effects on the underlying writer: the current header map and
the list of status codes forwarded to `responseWriter.WriteHeader`. -/
structure response where
  c : Compress
  headers : Header
  sent : List Nat
  writer : WTarget
  compressWriter : Option Nat
  wroteHeader : Bool
  f : Option Nat
  encodingName : String
deriving DecidableEq

/-- `Compress.newResponse`: a fresh wrapper around a sink whose header
map currently holds `h`. -/
def newResponse (c : Compress) (h : Header) (f : Option Nat) (encodingName : String) : response :=
  { c := c, headers := h, sent := [], writer := .unset, compressWriter := none,
    wroteHeader := false, f := f, encodingName := encodingName }

/-- Embedding of `response.writeHeader(status, bs)`.  `detect` stands for
the external `http.DetectContentType` applied to the first chunk (`bs`,
`none` when the call came from an explicit WriteHeader).  The deferred
call forwards the status and sets `wroteHeader`. -/
def response.writeHeader (detect : Option (List Nat) → String)
    (resp : response) (status : Nat) (bs : Option (List Nat)) : response :=
  let h0 := hDel resp.headers "Content-Length"
  let ct0 := hGet h0 "Content-Type"
  let ct := if ct0 = "" then detect bs else ct0
  let h1 := if ct0 = "" then hSet h0 "Content-Type" ct else h0
  let resp1 :=
    if resp.f.isNone || !(bodyAllowedForStatus status) || !(canCompressed resp.c.types ct) then
      { resp with headers := h1, writer := .raw }
    else
      { resp with
        headers := hAdd (hSet h1 "Content-Encoding" resp.encodingName) "Vary" "Content-Encoding",
        compressWriter := resp.f,
        writer := .codec (resp.f.getD 0) }
  { resp1 with sent := resp1.sent ++ [status], wroteHeader := true }

/-- Embedding of the exported `response.WriteHeader(code)`: it calls
`writeHeader(code, nil)` unconditionally. -/
def response.WriteHeaderCall (detect : Option (List Nat) → String)
    (resp : response) (code : Nat) : response :=
  response.writeHeader detect resp code none

/-- Where a body chunk handed to `response.Write` ends up. -/
inductive Dest where
  | raw
  | codec (w : Nat)
  | nilWriter
deriving DecidableEq

/-- Embedding of `response.Write(bs)`: on the first call it performs the
implicit `writeHeader(200, bs)`, then writes to the current writer. -/
def response.WriteCall (detect : Option (List Nat) → String)
    (resp : response) (bs : List Nat) : response × Dest :=
  let resp1 := if !resp.wroteHeader then response.writeHeader detect resp 200 (some bs) else resp
  match resp1.writer with
  | .unset => (resp1, .nilWriter)
  | .raw => (resp1, .raw)
  | .codec w => (resp1, .codec w)

/-- One call a downstream handler can make on the wrapper. -/
inductive Op where
  | writeHeader (status : Nat)
  | write (bs : List Nat)
deriving DecidableEq

/-- Apply one handler call to the wrapper. -/
def applyOp (detect : Option (List Nat) → String) (resp : response) : Op → response
  | .writeHeader s => response.WriteHeaderCall detect resp s
  | .write bs => (response.WriteCall detect resp bs).1

/-- Run a sequence of handler calls. -/
def runOps (detect : Option (List Nat) → String) (resp : response) : List Op → response
  | [] => resp
  | op :: rest => runOps detect (applyOp detect resp op) rest

/-! The legacy `handlers` package compressor (`compress.go`). -/

namespace handlers

/-- Outcome of `compress.ServeHTTP`: the downstream handler is served
with the original writer (no hijacker, pass-through), or through the
`compressWriter` wrapper with the chosen codec, or the method panics at
`defer gzw.Close()` because no codec matched and `gzw` stayed nil. -/
inductive Served where
  | plain
  | wrapped (encoding : String)
  | panicNilClose
deriving DecidableEq

/-- The loop over `strings.Split(header, ",")`: each entry is lowercased
into the loop variable `encoding`; the loop breaks on `gzip` or
`deflate`.  Returns the final value of `encoding` and the codec found.
(`flate.NewWriter` with `DefaultCompression` never errors, so the
deflate error branch is unreachable.) -/
def scanEncodings : String → List String → String × Option String
  | enc, [] => (enc, none)
  | _, e :: rest =>
    let enc := strToLower e
    if enc = "gzip" then (enc, some "gzip")
    else if enc = "deflate" then (enc, some "deflate")
    else scanEncodings enc rest

/-- Embedding of `compress.ServeHTTP`.  A non-hijackable writer serves
pass-through at once.  Otherwise the Accept-Encoding header is split on
commas and scanned; when no entry matches, `gzw` is nil and the deferred
`gzw.Close()` panics before the handler runs to completion.  (Header
mutation before the panic is not modelled.) -/
def serveHTTP (hijackable : Bool) (acceptEncoding : String) : Served :=
  if !hijackable then .plain
  else
    match (scanEncodings "" (splitOnChar ',' acceptEncoding)).2 with
    | some enc => .wrapped enc
    | none => .panicNilClose

end handlers

/-- Whether an operation is a body write (used to describe handler call
sequences containing no explicit header-write call). -/
def Op.isBodyWrite : Op → Bool
  | .write _ => true
  | .writeHeader _ => false

/-- A concrete stand-in for the external `http.DetectContentType`: every
chunk sniffs as the default text/plain media type. -/
def sniffStub : Option (List Nat) → String := fun _ => "text/plain; charset=utf-8"

/-- A concrete configuration: one registered gzip codec, text types
eligible for compression. -/
def gzipCfg : Compress := ⟨[⟨"gzip", 3⟩], ["text/*"]⟩

/-- A concrete configuration with nothing registered and no filter. -/
def emptyCfg : Compress := ⟨[], []⟩

/-! Helper lemmas about the header-map model. -/

/-- Values of a key distribute over append. -/
theorem hValues_append (h1 h2 : Header) (k : String) :
    hValues (h1 ++ h2) k = hValues h1 k ++ hValues h2 k := by
  induction h1 with
  | nil => rfl
  | cons p t ih =>
    by_cases hp : p.1 = k
    · simp [hValues, hp, ih]
    · simp [hValues, hp, ih]

/-- Deleting a key leaves no values under it. -/
theorem hValues_hDel_self (h : Header) (k : String) :
    hValues (hDel h k) k = [] := by
  induction h with
  | nil => rfl
  | cons p t ih =>
    by_cases hp : p.1 = k
    · simpa [hDel, hValues, hp, List.filter_cons] using ih
    · simpa [hDel, hValues, hp, List.filter_cons] using ih

/-- Deleting one key does not change the values of another. -/
theorem hValues_hDel_ne (h : Header) (k k2 : String) (hne : k2 ≠ k) :
    hValues (hDel h k) k2 = hValues h k2 := by
  induction h with
  | nil => rfl
  | cons p t ih =>
    by_cases h1 : p.1 = k2
    · have h2 : ¬(p.1 = k) := fun hc => hne (h1.symm.trans hc)
      simpa [hDel, hValues, h1, h2, hne, Ne.symm hne, List.filter_cons] using ih
    · by_cases h2 : p.1 = k
      · simpa [hDel, hValues, h1, h2, hne, Ne.symm hne, List.filter_cons] using ih
      · simpa [hDel, hValues, h1, h2, hne, Ne.symm hne, List.filter_cons] using ih

/-- Values of one pair. -/
theorem hValues_single (k1 v k2 : String) :
    hValues [(k1, v)] k2 = if k1 = k2 then [v] else [] := by
  by_cases h : k1 = k2 <;> simp [hValues, h]

/-- Setting one key does not change the values of another. -/
theorem hValues_hSet_ne (h : Header) (k v k2 : String) (hne : k2 ≠ k) :
    hValues (hSet h k v) k2 = hValues h k2 := by
  rw [hSet, hValues_append, hValues_hDel_ne h k k2 hne, hValues_single,
    if_neg (fun hc => hne hc.symm), List.append_nil]

/-- Setting a key makes its value list that single value. -/
theorem hValues_hSet_self (h : Header) (k v : String) :
    hValues (hSet h k v) k = [v] := by
  rw [hSet, hValues_append, hValues_hDel_self, hValues_single, if_pos rfl,
    List.nil_append]

/-- Adding under one key does not change the values of another. -/
theorem hValues_hAdd_ne (h : Header) (k v k2 : String) (hne : k2 ≠ k) :
    hValues (hAdd h k v) k2 = hValues h k2 := by
  rw [hAdd, hValues_append, hValues_single, if_neg (fun hc => hne hc.symm),
    List.append_nil]

/-- Get through a deletion of a different key. -/
theorem hGet_hDel_ne (h : Header) (k k2 : String) (hne : k2 ≠ k) :
    hGet (hDel h k) k2 = hGet h k2 := by
  simp only [hGet, hValues_hDel_ne h k k2 hne]

/-! Helper lemmas about negotiation. -/

/-- Membership count by name rephrased. -/
theorem countP_name_pos (algs : List Algorithm) (name : String) :
    (0 < algs.countP (fun a => a.name = name)) ↔ ∃ a ∈ algs, a.name = name := by
  rw [List.countP_pos_iff]
  simp

/-- The loop of `findAlgorithm` skips a block of entries that are
malformed or are plain names matching no registered codec. -/
theorem findAlgorithmAux_skip (algs : List Algorithm) (all : List AcceptEntry)
    (pre rest : List AcceptEntry)
    (hpre : ∀ e ∈ pre, e.err = true ∨
      (e.value ≠ "*" ∧ e.value ≠ "identity" ∧ findIn algs e.value = none)) :
    findAlgorithmAux algs all (pre ++ rest) = findAlgorithmAux algs all rest := by
  induction pre with
  | nil => rfl
  | cons e t ih =>
    have he := hpre e (List.mem_cons_self e t)
    have ht : ∀ x ∈ t, x.err = true ∨
        (x.value ≠ "*" ∧ x.value ≠ "identity" ∧ findIn algs x.value = none) :=
      fun x hx => hpre x (List.mem_cons_of_mem e hx)
    by_cases herr : e.err = true
    · rw [List.cons_append]
      simp only [findAlgorithmAux, herr, if_true]
      exact ih ht
    · have hb : e.err = false := Bool.eq_false_iff.mpr herr
      rcases he with h | ⟨h1, h2, h3⟩
      · exact absurd h herr
      · rw [List.cons_append]
        simp only [findAlgorithmAux, hb, Bool.false_eq_true, if_false, h1, h2, h3, if_neg]
        exact ih ht

/-- With an empty registry the loop never selects a codec. -/
theorem findAlgorithmAux_nil_registry (all : List AcceptEntry) (l : List AcceptEntry)
    (n : String) (w : Nat) :
    findAlgorithmAux [] all l ≠ .compress n w := by
  induction l with
  | nil => simp [findAlgorithmAux]
  | cons e t ih =>
    simp only [findAlgorithmAux, matchStar, findIn, List.find?]
    by_cases herr : e.err = true
    · simpa [herr] using ih
    · have hb : e.err = false := Bool.eq_false_iff.mpr herr
      by_cases h1 : e.value = "*"
      · by_cases hq : e.q = 0
        · simp [hb, h1, hq]
        · simpa [hb, h1, hq] using ih
      · by_cases h2 : e.value = "identity"
        · simp [hb, h1, h2]
        · simpa [hb, h1, h2] using ih

/-! Helper lemmas about the response wrapper. -/

/-- A header write always marks the header as written. -/
theorem writeHeader_wroteHeader (d : Option (List Nat) → String) (resp : response)
    (status : Nat) (bs : Option (List Nat)) :
    (response.writeHeader d resp status bs).wroteHeader = true := rfl

/-- When the header was already written, a body write leaves the wrapper
state unchanged. -/
theorem WriteCall_fst_of_wrote (d : Option (List Nat) → String) (resp : response)
    (bs : List Nat) (h : resp.wroteHeader = true) :
    (response.WriteCall d resp bs).1 = resp := by
  cases hw : resp.writer <;> simp [response.WriteCall, h, hw]

/-- Every operation leaves the header marked as written. -/
theorem applyOp_wroteHeader (d : Option (List Nat) → String) (resp : response) (op : Op) :
    (applyOp d resp op).wroteHeader = true := by
  cases op with
  | writeHeader s => exact writeHeader_wroteHeader d resp s none
  | write bs =>
    by_cases h : resp.wroteHeader = true
    · rw [applyOp, WriteCall_fst_of_wrote d resp bs h]; exact h
    · have hb : resp.wroteHeader = false := Bool.eq_false_iff.mpr h
      cases hw : (response.writeHeader d resp 200 (some bs)).writer <;>
        simp [applyOp, response.WriteCall, hb, hw, writeHeader_wroteHeader]

/-- After the header was written, body writes leave the state unchanged. -/
theorem runOps_writes (d : Option (List Nat) → String) (resp : response) (ops : List Op)
    (h : resp.wroteHeader = true) (hops : ops.all Op.isBodyWrite = true) :
    runOps d resp ops = resp := by
  induction ops with
  | nil => rfl
  | cons o t ih =>
    rw [List.all_cons, Bool.and_eq_true] at hops
    cases o with
    | writeHeader s => simp [Op.isBodyWrite] at hops
    | write bs =>
      rw [runOps, applyOp, WriteCall_fst_of_wrote d resp bs h]
      exact ih hops.2

/-- The pass-through branch of `writeHeader`: when no codec was
negotiated, the status disallows a body, or the effective content type
fails the filter, the writer becomes the raw sink and the headers only
undergo the Content-Length deletion and the content-type sniffing. -/
theorem writeHeader_pass (d : Option (List Nat) → String) (resp : response)
    (status : Nat) (bs : Option (List Nat))
    (hc : (resp.f.isNone || !(bodyAllowedForStatus status) ||
        !(canCompressed resp.c.types
          (if hGet resp.headers "Content-Type" = "" then d bs
           else hGet resp.headers "Content-Type"))) = true) :
    (response.writeHeader d resp status bs).writer = .raw
    ∧ (response.writeHeader d resp status bs).headers =
        (if hGet resp.headers "Content-Type" = ""
         then hSet (hDel resp.headers "Content-Length") "Content-Type" (d bs)
         else hDel resp.headers "Content-Length") := by
  have hct0 : hGet (hDel resp.headers "Content-Length") "Content-Type"
      = hGet resp.headers "Content-Type" := hGet_hDel_ne _ _ _ (by decide)
  simp only [response.writeHeader, hct0]
  by_cases hct : hGet resp.headers "Content-Type" = ""
  · simp only [hct, if_pos rfl] at hc ⊢
    simp only [hc, if_pos rfl]
    exact ⟨rfl, rfl⟩
  · simp only [hct, if_neg hct] at hc ⊢
    simp only [hc, if_pos rfl]
    exact ⟨rfl, rfl⟩

/-- The compressing branch of `writeHeader`: the headers after the write,
written out explicitly. -/
theorem writeHeader_compress (d : Option (List Nat) → String) (resp : response)
    (status : Nat) (bs : Option (List Nat))
    (hc : (resp.f.isNone || !(bodyAllowedForStatus status) ||
        !(canCompressed resp.c.types
          (if hGet resp.headers "Content-Type" = "" then d bs
           else hGet resp.headers "Content-Type"))) = false) :
    (response.writeHeader d resp status bs).headers =
      hAdd (hSet
        (if hGet resp.headers "Content-Type" = ""
         then hSet (hDel resp.headers "Content-Length") "Content-Type" (d bs)
         else hDel resp.headers "Content-Length")
        "Content-Encoding" resp.encodingName) "Vary" "Content-Encoding" := by
  have hct0 : hGet (hDel resp.headers "Content-Length") "Content-Type"
      = hGet resp.headers "Content-Type" := hGet_hDel_ne _ _ _ (by decide)
  simp only [response.writeHeader, hct0]
  by_cases hct : hGet resp.headers "Content-Type" = ""
  · simp only [hct, if_pos rfl] at hc ⊢
    simp only [hc, Bool.false_eq_true, if_neg]
    rfl
  · simp only [hct, if_neg hct] at hc ⊢
    simp only [hc, Bool.false_eq_true, if_neg]
    rfl

/-- The scan of the legacy compressor finds no codec when no entry
lowercases to gzip or deflate. -/
theorem scanEncodings_none (l : List String)
    (h : ∀ e ∈ l, strToLower e ≠ "gzip" ∧ strToLower e ≠ "deflate") :
    ∀ enc, (handlers.scanEncodings enc l).2 = none := by
  induction l with
  | nil => intro enc; rfl
  | cons e t ih =>
    intro enc
    have he := h e (List.mem_cons_self e t)
    simp only [handlers.scanEncodings, he.1, he.2, if_neg]
    exact ih (fun x hx => h x (List.mem_cons_of_mem e hx)) (strToLower e)

/-! Claim theorems. -/

/-- C1: the claim states that a `*` entry with non-zero weight selects,
in registration order, the first registered codec whose name does not
appear as an explicit entry anywhere in the header.  The code does not:
its inner loop returns the current codec as soon as ANY header entry
differs from its name, and since the `*` entry itself never equals a
codec name, the first registered codec is always selected.  At the
failing input below (registry gzip then deflate; header `*` followed by
an explicit `gzip;q=0.5` entry) the code selects gzip although gzip is
explicitly listed, while the rule stated by the claim would select
deflate. -/
theorem c1_star_selection_code_eval :
    findAlgorithm [⟨"gzip", 1⟩, ⟨"deflate", 2⟩]
      [⟨"*", 1, false⟩, ⟨"gzip", 1/2, false⟩] = .compress "gzip" 1
    ∧ (∃ e ∈ ([⟨"*", 1, false⟩, ⟨"gzip", 1/2, false⟩] : List AcceptEntry), e.value = "gzip")
    ∧ specStarScan [⟨"gzip", 1⟩, ⟨"deflate", 2⟩]
      [⟨"*", 1, false⟩, ⟨"gzip", 1/2, false⟩] = some ⟨"deflate", 2⟩ := by
  decide

/-- C2: the claim states that SetAlgorithm overwrites an existing codec
of the same name in place and appends only for fresh names, so that no
two registry entries ever share a name.  The code appends
unconditionally whenever the factory is non-nil: setting `gzip` over an
existing `gzip` yields two entries named gzip, and name lookup still
returns the original entry, so the new factory is never reachable. -/
theorem c2_setAlgorithm_appends_duplicate :
    SetAlgorithm [⟨"gzip", 1⟩] "gzip" (some 2) = .ok [⟨"gzip", 1⟩, ⟨"gzip", 2⟩]
    ∧ ([⟨"gzip", 1⟩, ⟨"gzip", 2⟩] : List Algorithm).map Algorithm.name = ["gzip", "gzip"]
    ∧ findIn [⟨"gzip", 1⟩, ⟨"gzip", 2⟩] "gzip" = some ⟨"gzip", 1⟩ := by
  decide

/-- C3 counterexample: the claim says a header containing `*;q=0` is not
acceptable regardless of its other entries; but with gzip registered the
header `gzip, *;q=0` selects gzip, because the earlier matching entry is
processed first. -/
theorem c3_counterexample :
    (⟨"*", 0, false⟩ : AcceptEntry) ∈
      ([⟨"gzip", 1, false⟩, ⟨"*", 0, false⟩] : List AcceptEntry)
    ∧ findAlgorithm [⟨"gzip", 5⟩] [⟨"gzip", 1, false⟩, ⟨"*", 0, false⟩]
      ≠ .notAcceptable := by
  decide

/-- C3 (amended): a `*;q=0` entry yields the not-acceptable result when
the entries before it produce no result themselves — each is malformed
or is a plain name (neither `*` nor `identity`) matching no registered
codec; in particular a header whose only entry is `*;q=0` is not
acceptable for every registry. -/
theorem c3_star_q0_not_acceptable (algs : List Algorithm)
    (pre rest : List AcceptEntry)
    (hpre : ∀ e ∈ pre, e.err = true ∨
      (e.value ≠ "*" ∧ e.value ≠ "identity" ∧ findIn algs e.value = none)) :
    findAlgorithm algs (pre ++ ⟨"*", 0, false⟩ :: rest) = .notAcceptable := by
  unfold findAlgorithm
  rw [findAlgorithmAux_skip algs _ pre _ hpre]
  simp [findAlgorithmAux]

/-- C3 witness: with gzip registered, the header `br, *;q=0` is not
acceptable. -/
theorem c3_witness :
    findAlgorithm [⟨"gzip", 5⟩] [⟨"br", 1, false⟩, ⟨"*", 0, false⟩] = .notAcceptable :=
  c3_star_q0_not_acceptable [⟨"gzip", 5⟩] [⟨"br", 1, false⟩] [] (by decide)

/-- C4 counterexample: the claim says that with no codecs registered the
header map after the header write equals what the handler set (except
that no Vary is added); but the write still deletes a handler-set
Content-Length and introduces a sniffed Content-Type. -/
theorem c4_counterexample :
    (newResponse emptyCfg [("Content-Length", "5")] none "").f = none
    ∧ hValues [("Content-Length", "5")] "Content-Length" = ["5"]
    ∧ hValues (response.WriteHeaderCall sniffStub
        (newResponse emptyCfg [("Content-Length", "5")] none "") 200).headers
        "Content-Length" = []
    ∧ hGet (response.WriteHeaderCall sniffStub
        (newResponse emptyCfg [("Content-Length", "5")] none "") 200).headers
        "Content-Type" = "text/plain; charset=utf-8" := by
  decide

/-- C4 (amended): with no codec negotiated (`f = nil`, as negotiation
guarantees whenever the registry is empty) the response is delivered
pass-through — the writer is the raw sink and no Content-Encoding or
Vary is added, every header key other than Content-Length and
Content-Type keeps its values — but Content-Length is unconditionally
removed and Content-Type is sniffed in when the handler set none. -/
theorem c4_no_codec_pass_through (d : Option (List Nat) → String) (resp : response)
    (status : Nat) (bs : Option (List Nat)) (k : String)
    (accepts : List AcceptEntry) (n : String) (w : Nat)
    (hf : resp.f = none) (hk1 : k ≠ "Content-Length") (hk2 : k ≠ "Content-Type") :
    (response.writeHeader d resp status bs).writer = .raw
    ∧ hValues (response.writeHeader d resp status bs).headers "Content-Length" = []
    ∧ hValues (response.writeHeader d resp status bs).headers k = hValues resp.headers k
    ∧ findAlgorithm [] accepts ≠ .compress n w := by
  have hc : (resp.f.isNone || !(bodyAllowedForStatus status) ||
      !(canCompressed resp.c.types
        (if hGet resp.headers "Content-Type" = "" then d bs
         else hGet resp.headers "Content-Type"))) = true := by
    simp [hf]
  obtain ⟨hw, hh⟩ := writeHeader_pass d resp status bs hc
  refine ⟨hw, ?_, ?_, findAlgorithmAux_nil_registry accepts accepts n w⟩
  · rw [hh]
    by_cases hct : hGet resp.headers "Content-Type" = ""
    · rw [if_pos hct, hValues_hSet_ne _ _ _ _ (by decide), hValues_hDel_self]
    · rw [if_neg hct, hValues_hDel_self]
  · rw [hh]
    by_cases hct : hGet resp.headers "Content-Type" = ""
    · rw [if_pos hct, hValues_hSet_ne _ _ _ _ hk2, hValues_hDel_ne _ _ _ hk1]
    · rw [if_neg hct, hValues_hDel_ne _ _ _ hk1]

/-- C4 witness: a concrete pass-through write keeps a custom header,
drops Content-Length, and an empty registry selects no codec. -/
theorem c4_witness :
    (response.writeHeader sniffStub
      (newResponse emptyCfg [("Content-Length", "5"), ("X-Custom", "a")] none "")
      200 none).writer = .raw
    ∧ hValues (response.writeHeader sniffStub
        (newResponse emptyCfg [("Content-Length", "5"), ("X-Custom", "a")] none "")
        200 none).headers "Content-Length" = []
    ∧ hValues (response.writeHeader sniffStub
        (newResponse emptyCfg [("Content-Length", "5"), ("X-Custom", "a")] none "")
        200 none).headers "X-Custom"
      = hValues (newResponse emptyCfg [("Content-Length", "5"), ("X-Custom", "a")]
          none "").headers "X-Custom"
    ∧ findAlgorithm [] [⟨"*", 0, false⟩] ≠ .compress "gzip" 3 :=
  c4_no_codec_pass_through sniffStub
    (newResponse emptyCfg [("Content-Length", "5"), ("X-Custom", "a")] none "")
    200 none "X-Custom" [⟨"*", 0, false⟩] "gzip" 3 rfl (by decide) (by decide)

/-- C5 counterexample: the claim says the compression decision runs
exactly once and no later header-write call can change the chosen output
path; but a second explicit WriteHeader call re-runs the decision — here
the first call (status 204) chooses pass-through and the second (status
200) splices the codec writer in. -/
theorem c5_counterexample :
    (response.WriteHeaderCall sniffStub
      (newResponse gzipCfg [("Content-Type", "text/html")] (some 3) "gzip") 204).writer
      = .raw
    ∧ (response.WriteHeaderCall sniffStub (response.WriteHeaderCall sniffStub
        (newResponse gzipCfg [("Content-Type", "text/html")] (some 3) "gzip") 204)
        200).writer = .codec 3 := by
  decide

/-- C5 (amended): the decision runs at the first body write (which
performs the implicit status-200 header write) or at an explicit
header-write call, and body writes never re-run it: after any first
operation the wrapper state — in particular the chosen output path — is
unchanged by any following sequence of body writes.  Only a further
explicit WriteHeader call (disallowed by the http contract) re-runs the
decision, as the counterexample shows. -/
theorem c5_decision_immutable_under_writes (d : Option (List Nat) → String)
    (resp : response) (op : Op) (ops : List Op)
    (hops : ops.all Op.isBodyWrite = true) :
    runOps d resp (op :: ops) = applyOp d resp op
    ∧ (applyOp d resp op).wroteHeader = true := by
  refine ⟨?_, applyOp_wroteHeader d resp op⟩
  rw [runOps]
  exact runOps_writes d (applyOp d resp op) ops (applyOp_wroteHeader d resp op) hops

/-- C5 witness: a first body write followed by another body write leaves
the state decided by the first write. -/
theorem c5_witness :
    runOps sniffStub (newResponse gzipCfg [] (some 3) "gzip") [Op.write [1], Op.write [2]]
      = applyOp sniffStub (newResponse gzipCfg [] (some 3) "gzip") (Op.write [1])
    ∧ (applyOp sniffStub (newResponse gzipCfg [] (some 3) "gzip")
        (Op.write [1])).wroteHeader = true :=
  c5_decision_immutable_under_writes sniffStub (newResponse gzipCfg [] (some 3) "gzip")
    (Op.write [1]) [Op.write [2]] (by decide)

/-- C6: when the status disallows a body (1xx, 204, 304) or the
effective content type (explicit, or sniffed when absent) fails the
filter, the header write chooses the raw sink, the Content-Encoding
values are untouched, and a subsequent body write goes to the raw sink
and leaves the raw routing in place — regardless of the negotiated
codec `resp.f`. -/
theorem c6_never_compressed (d : Option (List Nat) → String) (resp : response)
    (status : Nat) (bs : Option (List Nat)) (bs2 : List Nat)
    (hbad : bodyAllowedForStatus status = false ∨
      canCompressed resp.c.types
        (if hGet resp.headers "Content-Type" = "" then d bs
         else hGet resp.headers "Content-Type") = false) :
    (response.writeHeader d resp status bs).writer = .raw
    ∧ hValues (response.writeHeader d resp status bs).headers "Content-Encoding"
        = hValues resp.headers "Content-Encoding"
    ∧ (response.WriteCall d (response.writeHeader d resp status bs) bs2).2 = .raw
    ∧ (response.WriteCall d (response.writeHeader d resp status bs) bs2).1.writer
        = .raw := by
  have hCL : ("Content-Encoding" : String) ≠ "Content-Length" := by decide
  have hCT : ("Content-Encoding" : String) ≠ "Content-Type" := by decide
  have hc : (resp.f.isNone || !(bodyAllowedForStatus status) ||
      !(canCompressed resp.c.types
        (if hGet resp.headers "Content-Type" = "" then d bs
         else hGet resp.headers "Content-Type"))) = true := by
    rcases hbad with h | h <;> simp [h]
  obtain ⟨hw, hh⟩ := writeHeader_pass d resp status bs hc
  refine ⟨hw, ?_, ?_, ?_⟩
  · rw [hh]
    by_cases hct : hGet resp.headers "Content-Type" = ""
    · rw [if_pos hct, hValues_hSet_ne _ _ _ _ hCT, hValues_hDel_ne _ _ _ hCL]
    · rw [if_neg hct, hValues_hDel_ne _ _ _ hCL]
  · simp [response.WriteCall, writeHeader_wroteHeader d resp status bs, hw]
  · simp [response.WriteCall, writeHeader_wroteHeader d resp status bs, hw]

/-- C6 witness: a status-204 header write with a negotiated codec and a
compressible content type stays pass-through. -/
theorem c6_witness :
    (response.writeHeader sniffStub
      (newResponse gzipCfg [("Content-Type", "text/html")] (some 3) "gzip")
      204 none).writer = .raw
    ∧ hValues (response.writeHeader sniffStub
        (newResponse gzipCfg [("Content-Type", "text/html")] (some 3) "gzip")
        204 none).headers "Content-Encoding"
      = hValues (newResponse gzipCfg [("Content-Type", "text/html")] (some 3)
          "gzip").headers "Content-Encoding"
    ∧ (response.WriteCall sniffStub (response.writeHeader sniffStub
        (newResponse gzipCfg [("Content-Type", "text/html")] (some 3) "gzip")
        204 none) [7]).2 = .raw
    ∧ (response.WriteCall sniffStub (response.writeHeader sniffStub
        (newResponse gzipCfg [("Content-Type", "text/html")] (some 3) "gzip")
        204 none) [7]).1.writer = .raw :=
  c6_never_compressed sniffStub
    (newResponse gzipCfg [("Content-Type", "text/html")] (some 3) "gzip")
    204 none [7] (Or.inl (by decide))

/-- C7: when the entries before an `identity` entry produce no result —
each is malformed or a plain name matching no registered codec — the
negotiation returns the no-compression result with the not-acceptable
flag unset, whatever codecs are registered and whatever follows. -/
theorem c7_identity_no_compression (algs : List Algorithm)
    (pre rest : List AcceptEntry) (q : Rat)
    (hpre : ∀ e ∈ pre, e.err = true ∨
      (e.value ≠ "*" ∧ e.value ≠ "identity" ∧ findIn algs e.value = none)) :
    findAlgorithm algs (pre ++ ⟨"identity", q, false⟩ :: rest) = .noCompression := by
  unfold findAlgorithm
  rw [findAlgorithmAux_skip algs _ pre _ hpre]
  simp [findAlgorithmAux]

/-- C7 witness: `identity, gzip` with gzip registered still yields no
compression. -/
theorem c7_witness :
    findAlgorithm [⟨"gzip", 5⟩] [⟨"identity", 1, false⟩, ⟨"gzip", 1, false⟩]
      = .noCompression :=
  c7_identity_no_compression [⟨"gzip", 5⟩] [] [⟨"gzip", 1, false⟩] 1 (by decide)

/-- C8: AddAlgorithm panics exactly for an empty, `identity` or `*` name
or a nil factory; among non-panicking calls it returns false leaving the
registry unchanged exactly when the name is already registered, and
otherwise returns true having appended the new codec. -/
theorem c8_addAlgorithm_contract (algs : List Algorithm) (name : String)
    (wf : Option Nat) :
    (AddAlgorithm algs name wf = .panics ↔
      (name = "" ∨ name = "identity" ∨ name = "*" ∨ wf = none))
    ∧ (AddAlgorithm algs name wf = .ok false algs ↔
      (¬(name = "" ∨ name = "identity" ∨ name = "*") ∧ wf ≠ none
        ∧ ∃ a ∈ algs, a.name = name))
    ∧ (∀ w, wf = some w → ¬(name = "" ∨ name = "identity" ∨ name = "*") →
      (∀ a ∈ algs, a.name ≠ name) →
      AddAlgorithm algs name wf = .ok true (algs ++ [⟨name, w⟩])) := by
  have hres : reservedName name = true ↔ (name = "" ∨ name = "identity" ∨ name = "*") := by
    simp [reservedName, or_assoc]
  by_cases hr : reservedName name = true
  · have hA : AddAlgorithm algs name wf = .panics := by
      unfold AddAlgorithm; rw [if_pos hr]
    have hdisj : name = "" ∨ name = "identity" ∨ name = "*" ∨ wf = none := by
      rcases hres.mp hr with h | h | h
      · exact Or.inl h
      · exact Or.inr (Or.inl h)
      · exact Or.inr (Or.inr (Or.inl h))
    refine ⟨by rw [hA]; exact iff_of_true rfl hdisj, ?_, ?_⟩
    · rw [hA]
      exact iff_of_false (by simp) (fun h => absurd (hres.mp hr) h.1)
    · intro w hw hnr; exact absurd (hres.mp hr) hnr
  · have hrf : ¬(reservedName name = true) := hr
    have hnres : ¬(name = "" ∨ name = "identity" ∨ name = "*") := fun h => hr (hres.mpr h)
    cases wf with
    | none =>
      have hA : AddAlgorithm algs name none = .panics := by
        unfold AddAlgorithm; rw [if_neg hrf, if_pos (by simp)]
      refine ⟨by rw [hA]; exact iff_of_true rfl (Or.inr (Or.inr (Or.inr rfl))), ?_, ?_⟩
      · rw [hA]
        exact iff_of_false (by simp) (fun h => absurd rfl h.2.1)
      · intro w hw; exact absurd hw (by simp)
    | some w0 =>
      have hwn : ¬((some w0 : Option Nat).isNone = true) := by simp
      by_cases hdup : 0 < algs.countP (fun a => a.name = name)
      · have hA : AddAlgorithm algs name (some w0) = .ok false algs := by
          unfold AddAlgorithm; rw [if_neg hrf, if_neg hwn, if_pos hdup]
        refine ⟨?_, ?_, ?_⟩
        · rw [hA]
          refine iff_of_false (by simp) ?_
          intro h
          rcases h with h | h | h | h
          · exact hnres (Or.inl h)
          · exact hnres (Or.inr (Or.inl h))
          · exact hnres (Or.inr (Or.inr h))
          · exact Option.noConfusion h
        · rw [hA]
          exact iff_of_true rfl ⟨hnres, by simp, (countP_name_pos algs name).mp hdup⟩
        · intro w hw hnr hfresh
          obtain ⟨a, ha, hname⟩ := (countP_name_pos algs name).mp hdup
          exact absurd hname (hfresh a ha)
      · have hA : AddAlgorithm algs name (some w0) = .ok true (algs ++ [⟨name, w0⟩]) := by
          unfold AddAlgorithm; rw [if_neg hrf, if_neg hwn, if_neg hdup]; rfl
        refine ⟨?_, ?_, ?_⟩
        · rw [hA]
          refine iff_of_false (by simp) ?_
          intro h
          rcases h with h | h | h | h
          · exact hnres (Or.inl h)
          · exact hnres (Or.inr (Or.inl h))
          · exact hnres (Or.inr (Or.inr h))
          · exact Option.noConfusion h
        · rw [hA]
          refine iff_of_false (by simp) ?_
          intro h
          exact hdup ((countP_name_pos algs name).mpr h.2.2)
        · intro w hw hnr hfresh
          cases hw
          exact hA

/-- C8 witness: adding a fresh name to a registry holding gzip appends
it and returns true. -/
theorem c8_witness :
    AddAlgorithm [⟨"gzip", 1⟩] "br" (some 2) = .ok true [⟨"gzip", 1⟩, ⟨"br", 2⟩] :=
  (c8_addAlgorithm_contract [⟨"gzip", 1⟩] "br" (some 2)).2.2 2 rfl (by decide) (by decide)

/-- C9: every header write deletes all Content-Length values, and when
the handler set no Content-Type it stores the sniffed type of the first
chunk — for every state, status (body-disallowing ones included) and
negotiated codec, pass-through included. -/
theorem c9_header_write_effects (d : Option (List Nat) → String) (resp : response)
    (status : Nat) (bs : Option (List Nat)) :
    hValues (response.writeHeader d resp status bs).headers "Content-Length" = []
    ∧ (hGet resp.headers "Content-Type" = "" →
       hGet (response.writeHeader d resp status bs).headers "Content-Type" = d bs) := by
  have hCT : ("Content-Length" : String) ≠ "Content-Type" := by decide
  have hCE : ("Content-Length" : String) ≠ "Content-Encoding" := by decide
  have hV : ("Content-Length" : String) ≠ "Vary" := by decide
  have hTE : ("Content-Type" : String) ≠ "Content-Encoding" := by decide
  have hTV : ("Content-Type" : String) ≠ "Vary" := by decide
  by_cases hc : (resp.f.isNone || !(bodyAllowedForStatus status) ||
      !(canCompressed resp.c.types
        (if hGet resp.headers "Content-Type" = "" then d bs
         else hGet resp.headers "Content-Type"))) = true
  · obtain ⟨-, hh⟩ := writeHeader_pass d resp status bs hc
    rw [hh]
    constructor
    · by_cases hct : hGet resp.headers "Content-Type" = ""
      · rw [if_pos hct, hValues_hSet_ne _ _ _ _ hCT, hValues_hDel_self]
      · rw [if_neg hct, hValues_hDel_self]
    · intro hct
      rw [if_pos hct]
      simp only [hGet, hValues_hSet_self]
      rfl
  · have hcf := Bool.eq_false_iff.mpr hc
    rw [writeHeader_compress d resp status bs hcf]
    constructor
    · rw [hValues_hAdd_ne _ _ _ _ hV, hValues_hSet_ne _ _ _ _ hCE]
      by_cases hct : hGet resp.headers "Content-Type" = ""
      · rw [if_pos hct, hValues_hSet_ne _ _ _ _ hCT, hValues_hDel_self]
      · rw [if_neg hct, hValues_hDel_self]
    · intro hct
      rw [if_pos hct]
      simp only [hGet, hValues_hAdd_ne _ _ _ _ hTV, hValues_hSet_ne _ _ _ _ hTE,
        hValues_hSet_self]
      rfl

/-- C9 witness: a status-204 pass-through write on a response carrying
only a Content-Length drops it and sniffs the content type. -/
theorem c9_witness :
    hValues (response.writeHeader sniffStub
      (newResponse gzipCfg [("Content-Length", "5")] none "") 204 none).headers
      "Content-Length" = []
    ∧ hGet (response.writeHeader sniffStub
        (newResponse gzipCfg [("Content-Length", "5")] none "") 204 none).headers
        "Content-Type" = "text/plain; charset=utf-8" := by
  obtain ⟨h1, h2⟩ := c9_header_write_effects sniffStub
    (newResponse gzipCfg [("Content-Length", "5")] none "") 204 none
  exact ⟨h1, h2 (by decide)⟩

/-- C10: when a hijack-capable writer serves a request whose
Accept-Encoding header has no comma-separated entry lowercasing to gzip
or deflate, the legacy compressor leaves `gzw` nil and its deferred
`gzw.Close()` panics instead of serving the response. -/
theorem c10_nil_close_panic (header : String)
    (h : ∀ e ∈ splitOnChar ',' header,
      strToLower e ≠ "gzip" ∧ strToLower e ≠ "deflate") :
    handlers.serveHTTP true header = .panicNilClose := by
  unfold handlers.serveHTTP
  rw [scanEncodings_none (splitOnChar ',' header) h ""]
  rfl

/-- C10 witness: the header `br` panics the legacy compressor. -/
theorem c10_witness : handlers.serveHTTP true "br" = .panicNilClose :=
  c10_nil_close_panic "br" (by decide)
